import Mathlib

/-!
Verification of the FIX-log-to-CSV core of `fix_to_csv.py`.

The embedding works over `List Char` (one Python `str` = one `List Char`):
* `parse_fix_line` mirrors the delimiter-cascade tokenizer,
* `processLine` / `load_orders_and_fills` mirror the order-store / fill-buffer
  construction pass,
* `buildRow?` / `build_rows` mirror the fill correlator, and
* `run` is the composition performed by `main` (file IO aside).

Python dictionaries are modelled as association lists with Python's
insert-or-overwrite assignment (`dictPut`) and `get` (`dictGet?`); Python's
truthiness of strings (`if not s`, `a or b`) is modelled explicitly
(`pyOr`, `pyOrS`, emptiness tests).
-/

set_option autoImplicit false

/-- Characters matched by Python's `\s` regex class and stripped by `str.strip()`
(for ASCII input). -/
def pySpace (c : Char) : Bool :=
  c = ' ' || c = '\t' || c = '\n' || c = '\x0b' || c = '\x0c' || c = '\r'

/-- Python `str.strip()`: drop leading and trailing whitespace. -/
def pyStrip (cs : List Char) : List Char :=
  ((cs.dropWhile pySpace).reverse.dropWhile pySpace).reverse

/-- Split a character list at every character satisfying `p`, keeping empty
tokens, as Python's `str.split(sep)` (for a one-character `sep`) and
`re.split(r"\s+")` do (the latter never yields interior empties on stripped
input, and empty tokens are skipped downstream anyway). -/
def splitOnPred (p : Char → Bool) : List Char → List (List Char)
  | [] => [[]]
  | c :: cs =>
    if p c then
      [] :: splitOnPred p cs
    else
      match splitOnPred p cs with
      | [] => [[c]]
      | t :: ts => (c :: t) :: ts

/-- Python `f.split("=", 1)` when `"=" in f`: split at the first `'='`;
`none` when the token has no `'='`. -/
def splitFirstEq : List Char → Option (List Char × List Char)
  | [] => none
  | c :: cs =>
    if c = '=' then some ([], cs)
    else
      match splitFirstEq cs with
      | none => none
      | some (k, v) => some (c :: k, v)

/-- A tokenized FIX message: tag → value, as an insertion-ordered
association list (the model of a Python `dict`). -/
abbrev RawMessage := List (List Char × List Char)

/-- Python `d[k] = v`: overwrite in place when the key exists, else append. -/
def dictPut {β : Type} (m : List (List Char × β)) (k : List Char) (v : β) :
    List (List Char × β) :=
  match m with
  | [] => [(k, v)]
  | (k', v') :: rest => if k' = k then (k, v) :: rest else (k', v') :: dictPut rest k v

/-- Python `d.get(k)`: `none` when the key is absent. -/
def dictGet? {β : Type} (m : List (List Char × β)) (k : List Char) : Option β :=
  (m.find? (fun p => p.1 = k)).map (fun p => p.2)

/-- Python `d.get(k, "")`. -/
def getD (m : RawMessage) (k : List Char) : List Char :=
  (dictGet? m k).getD []

/-- Python `a or b` for two `str | None` values (empty string is falsy). -/
def pyOr (a b : Option (List Char)) : Option (List Char) :=
  match a with
  | some v => if v = [] then b else some v
  | none => b

/-- Python `a or b` for two strings. -/
def pyOrS (a b : List Char) : List Char :=
  if a = [] then b else a

/-- Shorthand for writing `List Char` literals. -/
def chars (s : String) : List Char := s.data

-- Tag constants of fix_to_csv.py.
def TAG_MSGTYPE : List Char := chars "35"
def TAG_CLORDID : List Char := chars "11"
def TAG_ORIGCLORDID : List Char := chars "41"
def TAG_TRANSACTTIME : List Char := chars "60"
def TAG_SYMBOL : List Char := chars "55"
def TAG_SIDE : List Char := chars "54"
def TAG_ORDERQTY : List Char := chars "38"
def TAG_ORDTYPE : List Char := chars "40"
def TAG_PRICE : List Char := chars "44"
def TAG_EXECTYPE : List Char := chars "150"
def TAG_ORDSTATUS : List Char := chars "39"
def TAG_AVGPX : List Char := chars "6"
def TAG_LASTMKT : List Char := chars "30"

-- Value constants of fix_to_csv.py.
def MSG_NEW_ORDER_SINGLE : List Char := chars "D"
def MSG_EXEC_REPORT : List Char := chars "8"
def EXECTYPE_FILL : List Char := chars "2"
def ORDSTATUS_FILLED : List Char := chars "2"
def ORDTYPE_LIMIT : List Char := chars "2"

/-- The SOH field separator. -/
def soh : Char := '\x01'

/-- Body of the token loop in `parse_fix_line`: skip an empty token, skip a
token with no `'='`, otherwise assign `msg[k] = v`. -/
def addField (msg : RawMessage) (f : List Char) : RawMessage :=
  if f = [] then msg
  else
    match splitFirstEq f with
    | none => msg
    | some (k, v) => dictPut msg k v

/-- `parse_fix_line` of fix_to_csv.py: strip, return empty on a blank line,
pick the delimiter by the SOH / pipe / whitespace cascade, and fold the
`tag=value` tokens into a dict (tokens that are empty or have no `'='` are
skipped; only the first `'='` separates). -/
def parse_fix_line (line0 : List Char) : RawMessage :=
  let line := pyStrip line0
  if line = [] then []
  else
    let fields :=
      if soh ∈ line then splitOnPred (fun c => c = soh) line
      else if '|' ∈ line then splitOnPred (fun c => c = '|') line
      else splitOnPred pySpace line
    fields.foldl addField []

/-- The dict stored in `orders_by_id[clid]` for a qualifying New Order Single. -/
def mkStoredOrder (clid : List Char) (msg : RawMessage) (ordtype : List Char) :
    RawMessage :=
  [(TAG_CLORDID, clid),
   (TAG_TRANSACTTIME, getD msg TAG_TRANSACTTIME),
   (TAG_SYMBOL, getD msg TAG_SYMBOL),
   (TAG_SIDE, getD msg TAG_SIDE),
   (TAG_ORDERQTY, getD msg TAG_ORDERQTY),
   (TAG_PRICE, getD msg TAG_PRICE),
   (TAG_ORDTYPE, ordtype)]

/-- State of the loading loop: `(orders_by_id, fills)`. -/
abbrev LoadState := List (List Char × RawMessage) × List RawMessage

/-- Loop body of `load_orders_and_fills`: classify one line and update the
order store or the fill buffer. -/
def processLine (st : LoadState) (line : List Char) : LoadState :=
  let msg := parse_fix_line line
  if msg = [] then st
  else
    match dictGet? msg TAG_MSGTYPE with
    | none => st
    | some msgtype =>
      if msgtype = MSG_NEW_ORDER_SINGLE then
        match dictGet? msg TAG_CLORDID with
        | none => st
        | some clid =>
          if clid = [] then st
          else
            match dictGet? msg TAG_ORDTYPE with
            | none => st
            | some ordtype =>
              if ordtype = ORDTYPE_LIMIT then
                (dictPut st.1 clid (mkStoredOrder clid msg ordtype), st.2)
              else st
      else if msgtype = MSG_EXEC_REPORT then
        if dictGet? msg TAG_EXECTYPE = some EXECTYPE_FILL ∧
            dictGet? msg TAG_ORDSTATUS = some ORDSTATUS_FILLED then
          (st.1, st.2 ++ [msg])
        else st
      else st

/-- `load_orders_and_fills` of fix_to_csv.py. -/
def load_orders_and_fills (lines : List (List Char)) : LoadState :=
  lines.foldl processLine ([], [])

/-- The CSV row composed for a correlated (order, fill) pair. -/
def mkRow (order ex : RawMessage) : List (List Char) :=
  [getD order TAG_CLORDID,
   getD order TAG_TRANSACTTIME,
   getD ex TAG_TRANSACTTIME,
   pyOrS (getD order TAG_SYMBOL) (getD ex TAG_SYMBOL),
   pyOrS (getD order TAG_SIDE) (getD ex TAG_SIDE),
   pyOrS (getD order TAG_ORDERQTY) (getD ex TAG_ORDERQTY),
   getD order TAG_PRICE,
   getD ex TAG_AVGPX,
   getD ex TAG_LASTMKT]

/-- Body of the `build_rows` loop after the correlation identifier has been
computed: drop on a falsy identifier, drop on a failed store lookup, drop on
an order-type echoed on the fill that is present and not limit, otherwise
compose the row. -/
def resolveWith (orders : List (List Char × RawMessage)) (ex : RawMessage)
    (clid? : Option (List Char)) : Option (List (List Char)) :=
  match clid? with
  | none => none
  | some clid =>
    if clid = [] then none
    else
      match dictGet? orders clid with
      | none => none
      | some order =>
        match dictGet? ex TAG_ORDTYPE with
        | some ordtypeExec =>
          if ordtypeExec ≠ ORDTYPE_LIMIT then none else some (mkRow order ex)
        | none => some (mkRow order ex)

/-- One iteration of the `build_rows` loop:
`clid = ex.get(TAG_ORIGCLORDID) or ex.get(TAG_CLORDID)` followed by the
drop checks and row composition. -/
def buildRow? (orders : List (List Char × RawMessage)) (ex : RawMessage) :
    Option (List (List Char)) :=
  resolveWith orders ex
    (pyOr (dictGet? ex TAG_ORIGCLORDID) (dictGet? ex TAG_CLORDID))

/-- `build_rows` of fix_to_csv.py. -/
def build_rows (orders : List (List Char × RawMessage))
    (fills : List RawMessage) : List (List (List Char)) :=
  fills.filterMap (buildRow? orders)

/-- The data path of `main`: load the store and the fill buffer from all
lines, then correlate. -/
def run (lines : List (List Char)) : List (List (List Char)) :=
  build_rows (load_orders_and_fills lines).1 (load_orders_and_fills lines).2

example :
    parse_fix_line (chars "35=D|11=A1|40=2|44=10.50") =
      [(chars "35", chars "D"), (chars "11", chars "A1"),
       (chars "40", chars "2"), (chars "44", chars "10.50")] := by decide

example :
    run [chars "35=D|11=A1|40=2|44=10.50|60=T1|55=XYZ|54=1|38=100",
         chars "35=8|41=A1|150=2|39=2|60=T2|6=10.40|30=NSDQ"] =
      [[chars "A1", chars "T1", chars "T2", chars "XYZ", chars "1",
        chars "100", chars "10.50", chars "10.40", chars "NSDQ"]] := by decide

/-- What `processLine` would store for a line, when the line classifies as a
qualifying (limit) New Order Single: the correlation identifier and the
stored order dict. -/
def storedOrder? (line : List Char) : Option (List Char × RawMessage) :=
  let msg := parse_fix_line line
  match dictGet? msg TAG_MSGTYPE with
  | none => none
  | some msgtype =>
    if msgtype = MSG_NEW_ORDER_SINGLE then
      match dictGet? msg TAG_CLORDID with
      | none => none
      | some clid =>
        if clid = [] then none
        else
          match dictGet? msg TAG_ORDTYPE with
          | none => none
          | some ordtype =>
            if ordtype = ORDTYPE_LIMIT then some (clid, mkStoredOrder clid msg ordtype)
            else none
    else none

/-- The tokenized message of a line, when the line classifies as a qualifying
full-fill Execution Report. -/
def fillMsg? (line : List Char) : Option RawMessage :=
  let msg := parse_fix_line line
  match dictGet? msg TAG_MSGTYPE with
  | none => none
  | some msgtype =>
    if msgtype = MSG_NEW_ORDER_SINGLE then none
    else if msgtype = MSG_EXEC_REPORT then
      if dictGet? msg TAG_EXECTYPE = some EXECTYPE_FILL ∧
          dictGet? msg TAG_ORDSTATUS = some ORDSTATUS_FILLED then
        some msg
      else none
    else none

theorem dictGet?_nil {β : Type} (k : List Char) :
    dictGet? ([] : List (List Char × β)) k = none := rfl

theorem dictGet?_cons {β : Type} (k' : List Char) (v' : β)
    (m : List (List Char × β)) (k : List Char) :
    dictGet? ((k', v') :: m) k = if k' = k then some v' else dictGet? m k := by
  by_cases h : k' = k <;> simp [dictGet?, List.find?, h]

theorem dictGet?_dictPut {β : Type} (m : List (List Char × β))
    (k k' : List Char) (v : β) :
    dictGet? (dictPut m k v) k' = if k' = k then some v else dictGet? m k' := by
  induction m with
  | nil =>
    by_cases h : k' = k
    · subst h
      simp [dictPut, dictGet?_cons]
    · have h2 : ¬ k = k' := fun hh => h hh.symm
      simp [dictPut, dictGet?_cons, h, h2, dictGet?_nil]
  | cons hd tl ih =>
    obtain ⟨k₀, v₀⟩ := hd
    by_cases h0 : k₀ = k
    · subst h0
      by_cases h : k' = k₀
      · subst h
        simp [dictPut, dictGet?_cons]
      · have h2 : ¬ k₀ = k' := fun hh => h hh.symm
        simp [dictPut, dictGet?_cons, h, h2]
    · simp only [dictPut, if_neg h0]
      by_cases h1 : k₀ = k'
      · subst h1
        simp [dictGet?_cons, h0]
      · simp [dictGet?_cons, h1, ih]

/-- `processLine` decomposed by classification: an order line overwrites the
store at its identifier, a fill line appends the message, every other line
leaves the state unchanged. -/
theorem processLine_eq (st : LoadState) (line : List Char) :
    processLine st line =
      ((match storedOrder? line with
        | some co => dictPut st.1 co.1 co.2
        | none => st.1),
       st.2 ++ ((fillMsg? line).map (fun m => [m])).getD []) := by
  unfold processLine storedOrder? fillMsg?
  by_cases hm : parse_fix_line line = []
  · simp [hm, dictGet?_nil]
  · simp only [hm, if_neg, if_false]
    cases h35 : dictGet? (parse_fix_line line) TAG_MSGTYPE with
    | none => simp
    | some msgtype =>
      by_cases hD : msgtype = MSG_NEW_ORDER_SINGLE
      · simp only [hD, if_pos, if_true]
        cases h11 : dictGet? (parse_fix_line line) TAG_CLORDID with
        | none => simp
        | some clid =>
          by_cases hc : clid = []
          · simp [hc]
          · simp only [hc, if_neg, if_false]
            cases h40 : dictGet? (parse_fix_line line) TAG_ORDTYPE with
            | none => simp
            | some ordtype =>
              by_cases hl : ordtype = ORDTYPE_LIMIT
              · simp [hl]
              · simp [hl]
      · by_cases h8 : msgtype = MSG_EXEC_REPORT
        · subst h8
          have hne : ¬ (MSG_EXEC_REPORT = MSG_NEW_ORDER_SINGLE) := by decide
          by_cases hq : dictGet? (parse_fix_line line) TAG_EXECTYPE = some EXECTYPE_FILL ∧
              dictGet? (parse_fix_line line) TAG_ORDSTATUS = some ORDSTATUS_FILLED
          · simp [hq, hne]
          · simp [hq, hne]
        · simp [hD, h8]

/-- The order line of the spec's concrete scenario. -/
def c2OrderLine : List Char :=
  chars "35=D\x0111=A1\x0140=2\x0160=20250910-08:00:00.377\x0155=XYZ\x0154=1\x0138=100\x0144=10.50"

/-- The fill line of the spec's concrete scenario. -/
def c2FillLine : List Char :=
  chars "35=8\x0141=A1\x016=10.40\x0130=NASDAQ\x01150=2\x0139=2\x0160=20250910-08:00:00.500"

/-- C2: the two-line scenario (order `35=D 11=A1 40=2 60=...377 55=XYZ 54=1
38=100 44=10.50` followed by fill `35=8 41=A1 6=10.40 30=NASDAQ 150=2 39=2
60=...500`, SOH-delimited) yields exactly one joined record with identifier
A1, order time 20250910-08:00:00.377, execution time 20250910-08:00:00.500,
symbol XYZ, side 1, quantity 100, limit price 10.50, average price 10.40,
venue NASDAQ. -/
theorem c2_concrete_scenario :
    run [c2OrderLine, c2FillLine] =
      [[chars "A1", chars "20250910-08:00:00.377", chars "20250910-08:00:00.500",
        chars "XYZ", chars "1", chars "100", chars "10.50", chars "10.40",
        chars "NASDAQ"]] := by decide

/-- A small concrete order store (identifier A1, limit price 10) shared by
the concrete instantiations below. -/
def wOrdersA1 : List (List Char × RawMessage) :=
  (load_orders_and_fills [chars "35=D|11=A1|40=2|44=10"]).1

/-- The stored-order dict arising from `wOrdersA1`. -/
def wOrderA1 : RawMessage :=
  mkStoredOrder (chars "A1") (parse_fix_line (chars "35=D|11=A1|40=2|44=10"))
    ORDTYPE_LIMIT

/-- C9: for a qualifying fill whose resolved identifier finds a stored order,
an order-type field echoed on the fill with a value other than limit drops
the fill, while a fill with no order-type field at all passes the
consistency check and yields the composed record. -/
theorem c9_exec_ordtype_check
    (orders : List (List Char × RawMessage)) (ex : RawMessage)
    (c : List Char) (order : RawMessage)
    (hres : pyOr (dictGet? ex TAG_ORIGCLORDID) (dictGet? ex TAG_CLORDID) = some c)
    (hc : c ≠ []) (horder : dictGet? orders c = some order) :
    (∀ v, dictGet? ex TAG_ORDTYPE = some v → v ≠ ORDTYPE_LIMIT →
      buildRow? orders ex = none) ∧
    (dictGet? ex TAG_ORDTYPE = none →
      buildRow? orders ex = some (mkRow order ex)) := by
  constructor
  · intro v hv hvne
    simp [buildRow?, resolveWith, hres, hc, horder, hv, hvne]
  · intro hnone
    simp [buildRow?, resolveWith, hres, hc, horder, hnone]

/-- Fill echoing order-type 1 (market) on a stored limit order A1. -/
def c9wEx : RawMessage := parse_fix_line (chars "35=8|41=A1|40=1|150=2|39=2")

theorem c9_witness :
    pyOr (dictGet? c9wEx TAG_ORIGCLORDID) (dictGet? c9wEx TAG_CLORDID) =
        some (chars "A1") ∧
    (chars "A1" : List Char) ≠ [] ∧
    dictGet? wOrdersA1 (chars "A1") = some wOrderA1 ∧
    buildRow? wOrdersA1 c9wEx = none :=
  ⟨by decide, by decide, by decide,
   (c9_exec_ordtype_check wOrdersA1 c9wEx (chars "A1") wOrderA1 (by decide)
      (by decide) (by decide)).1 (chars "1") (by decide) (by decide)⟩

/-- C10: a tag-41 field that is present with the empty value is treated
exactly as an absent tag 41 — in both cases the correlator carries on with
the fill's own tag-11 value. -/
theorem c10_empty_origid_like_absent
    (orders : List (List Char × RawMessage)) (ex ex₂ : RawMessage)
    (h : dictGet? ex TAG_ORIGCLORDID = some [])
    (h₂ : dictGet? ex₂ TAG_ORIGCLORDID = none) :
    buildRow? orders ex = resolveWith orders ex (dictGet? ex TAG_CLORDID) ∧
    buildRow? orders ex₂ = resolveWith orders ex₂ (dictGet? ex₂ TAG_CLORDID) := by
  constructor <;> simp [buildRow?, pyOr, h, h₂]

/-- Fill whose tag 41 is present but empty, with tag 11 = A1. -/
def c10wEx : RawMessage := parse_fix_line (chars "35=8|41=|11=A1|150=2|39=2")

/-- Fill with no tag 41 at all, with tag 11 = A1. -/
def c10wEx2 : RawMessage := parse_fix_line (chars "35=8|11=A1|150=2|39=2")

theorem c10_witness :
    dictGet? c10wEx TAG_ORIGCLORDID = some [] ∧
    buildRow? wOrdersA1 c10wEx =
      resolveWith wOrdersA1 c10wEx (dictGet? c10wEx TAG_CLORDID) ∧
    buildRow? wOrdersA1 c10wEx = some (mkRow wOrderA1 c10wEx) :=
  ⟨by decide,
   (c10_empty_origid_like_absent wOrdersA1 c10wEx c10wEx2 (by decide) (by decide)).1,
   by decide⟩

/-- Resolution as claim C3 words it: use tag 41's value whenever the field is
present, and fall back to tag 11 only when tag 41 is absent. -/
def resolveByAbsence (ex : RawMessage) : Option (List Char) :=
  match dictGet? ex TAG_ORIGCLORDID with
  | some v => some v
  | none => dictGet? ex TAG_CLORDID

/-- Input whose fill line carries a present-but-empty tag 41 next to tag 11. -/
def c3Lines : List (List Char) :=
  [chars "35=D|11=A1|40=2|44=9", chars "35=8|41=|11=A1|150=2|39=2"]

/-- C3 counterexample: on `c3Lines` the fill's tag 41 is present (value
empty), yet a record correlated through tag 11's identifier A1 is emitted —
the fallback is not restricted to an absent tag 41, and the code's outcome
differs from resolving with the claim's absence-only rule. -/
theorem c3_counterexample :
    dictGet? (parse_fix_line (chars "35=8|41=|11=A1|150=2|39=2"))
        TAG_ORIGCLORDID = some [] ∧
    run c3Lines = [[chars "A1", [], [], [], [], [], chars "9", [], []]] ∧
    buildRow? (load_orders_and_fills c3Lines).1
        (parse_fix_line (chars "35=8|41=|11=A1|150=2|39=2")) ≠
      resolveWith (load_orders_and_fills c3Lines).1
        (parse_fix_line (chars "35=8|41=|11=A1|150=2|39=2"))
        (resolveByAbsence (parse_fix_line (chars "35=8|41=|11=A1|150=2|39=2"))) := by
  refine ⟨by decide, by decide, by decide⟩

/-- Modelled from the amended claim: prefer tag 41 when present and
non-empty; otherwise use tag 11 when present and non-empty; otherwise drop.
Then look up the store, apply the order-type consistency check, and compose
the record. -/
def amendedResolveId (ex : RawMessage) : Option (List Char) :=
  match dictGet? ex TAG_ORIGCLORDID with
  | some v =>
    if v ≠ [] then some v
    else
      match dictGet? ex TAG_CLORDID with
      | some w => if w ≠ [] then some w else none
      | none => none
  | none =>
    match dictGet? ex TAG_CLORDID with
    | some w => if w ≠ [] then some w else none
    | none => none

/-- Modelled from the amended claim: the correlator with the amended
resolution rule. -/
def correlateAmended (orders : List (List Char × RawMessage)) (ex : RawMessage) :
    Option (List (List Char)) :=
  match amendedResolveId ex with
  | none => none
  | some clid =>
    match dictGet? orders clid with
    | none => none
    | some order =>
      match dictGet? ex TAG_ORDTYPE with
      | some ordtypeExec =>
        if ordtypeExec ≠ ORDTYPE_LIMIT then none else some (mkRow order ex)
      | none => some (mkRow order ex)

/-- C3 (amended): the correlator resolves the identifier by preferring a
present non-empty tag 41, falling back to a present non-empty tag 11, and
drops the fill otherwise (absent or empty both trigger the fallback and the
drop), with no record emitted and no error — for every store and fill, the
code's loop body equals the amended-rule correlator. -/
theorem c3_amended_resolution
    (orders : List (List Char × RawMessage)) (ex : RawMessage) :
    buildRow? orders ex = correlateAmended orders ex := by
  unfold buildRow? correlateAmended amendedResolveId pyOr resolveWith
  cases h41 : dictGet? ex TAG_ORIGCLORDID with
  | none =>
    cases h11 : dictGet? ex TAG_CLORDID with
    | none => simp
    | some w =>
      by_cases hw : w = []
      · simp [hw]
      · simp [hw]
  | some v =>
    by_cases hv : v = []
    · cases h11 : dictGet? ex TAG_CLORDID with
      | none => simp [hv]
      | some w =>
        by_cases hw : w = []
        · simp [hv, hw]
        · simp [hv, hw]
    · simp [hv]

theorem c3_amended_witness :
    buildRow? wOrdersA1 c10wEx = correlateAmended wOrdersA1 c10wEx :=
  c3_amended_resolution wOrdersA1 c10wEx

theorem mkStoredOrder_get_ordtype (c : List Char) (m : RawMessage) (ot : List Char) :
    dictGet? (mkStoredOrder c m ot) TAG_ORDTYPE = some ot := rfl

theorem dictGet?_mem {β : Type} (m : List (List Char × β)) (k : List Char) (o : β)
    (h : dictGet? m k = some o) : (k, o) ∈ m := by
  unfold dictGet? at h
  cases hf : m.find? (fun p => p.1 = k) with
  | none => rw [hf] at h; simp at h
  | some p =>
    rw [hf] at h
    simp at h
    have hp := List.find?_some hf
    have hpm := List.mem_of_find?_eq_some hf
    obtain ⟨p1, p2⟩ := p
    simp at hp h
    rw [hp] at hpm
    rw [h] at hpm
    exact hpm

/-- A line that classifies as a qualifying order stores an order-type equal
to limit. -/
theorem storedOrder?_limit (line : List Char) (c : List Char) (o : RawMessage)
    (h : storedOrder? line = some (c, o)) :
    dictGet? o TAG_ORDTYPE = some ORDTYPE_LIMIT := by
  cases h35 : dictGet? (parse_fix_line line) TAG_MSGTYPE with
  | none => simp [storedOrder?, h35] at h
  | some mt =>
    by_cases hD : mt = MSG_NEW_ORDER_SINGLE
    · cases h11 : dictGet? (parse_fix_line line) TAG_CLORDID with
      | none => simp [storedOrder?, h35, hD, h11] at h
      | some clid =>
        by_cases hc : clid = []
        · simp [storedOrder?, h35, hD, h11, hc] at h
        · cases h40 : dictGet? (parse_fix_line line) TAG_ORDTYPE with
          | none => simp [storedOrder?, h35, hD, h11, hc, h40] at h
          | some ot =>
            by_cases hl : ot = ORDTYPE_LIMIT
            · simp [storedOrder?, h35, hD, h11, hc, h40, hl] at h
              rw [← h.2, mkStoredOrder_get_ordtype]
            · simp [storedOrder?, h35, hD, h11, hc, h40, hl] at h
    · simp [storedOrder?, h35, hD] at h

/-- A line that classifies as a qualifying order is not a fill line. -/
theorem fillMsg?_none_of_stored (line : List Char) (co : List Char × RawMessage)
    (h : storedOrder? line = some co) : fillMsg? line = none := by
  cases h35 : dictGet? (parse_fix_line line) TAG_MSGTYPE with
  | none => simp [storedOrder?, h35] at h
  | some mt =>
    by_cases hD : mt = MSG_NEW_ORDER_SINGLE
    · simp [fillMsg?, h35, hD]
    · simp [storedOrder?, h35, hD] at h

/-- Every value in the store after a load pass, starting from a store whose
values all carry order-type limit, carries order-type limit. -/
theorem foldl_orders_limit (lines : List (List Char)) (st : LoadState)
    (hinv : ∀ k o, dictGet? st.1 k = some o →
      dictGet? o TAG_ORDTYPE = some ORDTYPE_LIMIT) :
    ∀ k o, dictGet? (lines.foldl processLine st).1 k = some o →
      dictGet? o TAG_ORDTYPE = some ORDTYPE_LIMIT := by
  induction lines generalizing st with
  | nil => exact hinv
  | cons l ls ih =>
    intro k o h
    refine ih (processLine st l) ?_ k o h
    intro k' o' h'
    rw [processLine_eq] at h'
    cases hso : storedOrder? l with
    | none => rw [hso] at h'; exact hinv k' o' h'
    | some co =>
      rw [hso] at h'
      simp only [] at h'
      rw [dictGet?_dictPut] at h'
      by_cases hk : k' = co.1
      · rw [if_pos hk] at h'
        obtain ⟨c₀, o₀⟩ := co
        cases h'
        exact storedOrder?_limit l c₀ o₀ hso
      · rw [if_neg hk] at h'
        exact hinv k' o' h'

/-- C7: a New Order Single whose order-type field is not limit (or absent)
leaves the state untouched; consequently every stored entry carries
order-type limit; and a fill whose resolved identifier is not in the store
is dropped without error. -/
theorem c7_nonlimit_never_stored :
    (∀ (st : LoadState) (line : List Char),
      dictGet? (parse_fix_line line) TAG_MSGTYPE = some MSG_NEW_ORDER_SINGLE →
      dictGet? (parse_fix_line line) TAG_ORDTYPE ≠ some ORDTYPE_LIMIT →
      processLine st line = st) ∧
    (∀ (lines : List (List Char)) (k : List Char) (o : RawMessage),
      dictGet? (load_orders_and_fills lines).1 k = some o →
      dictGet? o TAG_ORDTYPE = some ORDTYPE_LIMIT) ∧
    (∀ (orders : List (List Char × RawMessage)) (ex : RawMessage) (c : List Char),
      pyOr (dictGet? ex TAG_ORIGCLORDID) (dictGet? ex TAG_CLORDID) = some c →
      dictGet? orders c = none →
      buildRow? orders ex = none) := by
  refine ⟨?_, ?_, ?_⟩
  · intro st line h35 h40
    by_cases hm : parse_fix_line line = []
    · simp [processLine, hm]
    · cases h11 : dictGet? (parse_fix_line line) TAG_CLORDID with
      | none => simp [processLine, hm, h35, h11]
      | some clid =>
        by_cases hc : clid = []
        · simp [processLine, hm, h35, h11, hc]
        · cases h40c : dictGet? (parse_fix_line line) TAG_ORDTYPE with
          | none => simp [processLine, hm, h35, h11, hc, h40c]
          | some ot =>
            have hne : ¬ ot = ORDTYPE_LIMIT := fun he => h40 (by rw [h40c, he])
            simp [processLine, hm, h35, h11, hc, h40c, hne]
  · intro lines k o h
    exact foldl_orders_limit lines ([], []) (by intro k' o' h'; simp [dictGet?_nil] at h') k o h
  · intro orders ex c hres hmiss
    by_cases hc : c = []
    · simp [buildRow?, resolveWith, hres, hc]
    · simp [buildRow?, resolveWith, hres, hc, hmiss]

theorem c7_witness :
    processLine ([], []) (chars "35=D|11=B1|40=1") = ([], []) ∧
    dictGet? (load_orders_and_fills [chars "35=D|11=A1|40=2|44=10"]).1
        (chars "A1") = some wOrderA1 ∧
    dictGet? wOrderA1 TAG_ORDTYPE = some ORDTYPE_LIMIT ∧
    buildRow? [] (parse_fix_line (chars "35=8|41=C9|150=2|39=2")) = none :=
  ⟨c7_nonlimit_never_stored.1 ([], []) (chars "35=D|11=B1|40=1") (by decide) (by decide),
   by decide,
   c7_nonlimit_never_stored.2.1 [chars "35=D|11=A1|40=2|44=10"] (chars "A1")
     wOrderA1 (by decide),
   c7_nonlimit_never_stored.2.2 [] (parse_fix_line (chars "35=8|41=C9|150=2|39=2"))
     (chars "C9") (by decide) (by decide)⟩

/-- An execution report that is not a qualifying full fill leaves the loading
state untouched. -/
theorem processLine_id_nonfill_exec (st : LoadState) (line : List Char)
    (h35 : dictGet? (parse_fix_line line) TAG_MSGTYPE = some MSG_EXEC_REPORT)
    (hq : ¬ (dictGet? (parse_fix_line line) TAG_EXECTYPE = some EXECTYPE_FILL ∧
        dictGet? (parse_fix_line line) TAG_ORDSTATUS = some ORDSTATUS_FILLED)) :
    processLine st line = st := by
  have hne : ¬ (MSG_EXEC_REPORT = MSG_NEW_ORDER_SINGLE) := by decide
  by_cases hm : parse_fix_line line = []
  · simp [processLine, hm]
  · simp [processLine, hm, h35, hne, hq]

/-- C6: an execution report whose execution type is not 2 or whose order
status is not 2 is classified ignore and never produces a joined record —
the entire output is as if the line were not in the input, whatever orders
are stored. -/
theorem c6_nonqualifying_exec_ignored
    (pre post : List (List Char)) (line : List Char)
    (h35 : dictGet? (parse_fix_line line) TAG_MSGTYPE = some MSG_EXEC_REPORT)
    (hq : ¬ (dictGet? (parse_fix_line line) TAG_EXECTYPE = some EXECTYPE_FILL ∧
        dictGet? (parse_fix_line line) TAG_ORDSTATUS = some ORDSTATUS_FILLED)) :
    run (pre ++ line :: post) = run (pre ++ post) := by
  have hload : load_orders_and_fills (pre ++ line :: post) =
      load_orders_and_fills (pre ++ post) := by
    unfold load_orders_and_fills
    rw [List.foldl_append, List.foldl_append, List.foldl_cons,
      processLine_id_nonfill_exec _ _ h35 hq]
  simp [run, hload]

/-- An order line and a partial-fill report (exec type 1, status 1) on the
same identifier. -/
def c6wOrder : List Char := chars "35=D|11=A1|40=2|44=10"

def c6wPartial : List Char := chars "35=8|41=A1|150=1|39=1|30=V"

theorem c6_witness :
    dictGet? (parse_fix_line c6wPartial) TAG_MSGTYPE = some MSG_EXEC_REPORT ∧
    run [c6wOrder, c6wPartial] = run [c6wOrder] :=
  ⟨by decide,
   c6_nonqualifying_exec_ignored [c6wOrder] [] c6wPartial (by decide) (by decide)⟩

/-- C1 counterexample: an order line with no tag 60 and a fill line with no
tag 60 and no tag 30 produce an emitted row whose OrderTransactTime,
ExecutionTransactTime and LastMkt columns are all the empty string. -/
theorem c1_counterexample :
    run [chars "35=D|11=A1|40=2", chars "35=8|11=A1|150=2|39=2"] =
      [[chars "A1", [], [], [], [], [], [], [], []]] := by decide

/-- C1 (amended): `build_rows` emits a row with non-empty OrderTransactTime,
ExecutionTransactTime and LastMkt whenever every stored order carries a
non-empty tag 60 and every buffered fill carries non-empty tags 60 and 30;
without those side conditions the columns default to the empty string. -/
theorem c1_nonempty_when_sources_nonempty
    (orders : List (List Char × RawMessage)) (fills : List RawMessage)
    (hor : ∀ p ∈ orders, getD p.2 TAG_TRANSACTTIME ≠ [])
    (hf : ∀ f ∈ fills, getD f TAG_TRANSACTTIME ≠ [] ∧ getD f TAG_LASTMKT ≠ []) :
    ∀ row ∈ build_rows orders fills,
      row.get? 1 ≠ some [] ∧ row.get? 2 ≠ some [] ∧ row.get? 8 ≠ some [] := by
  intro row hrow
  rw [build_rows, List.mem_filterMap] at hrow
  obtain ⟨f, hfmem, hbuild⟩ := hrow
  rcases hres : pyOr (dictGet? f TAG_ORIGCLORDID) (dictGet? f TAG_CLORDID) with _ | clid
  · simp [buildRow?, resolveWith, hres] at hbuild
  · by_cases hc : clid = []
    · simp [buildRow?, resolveWith, hres, hc] at hbuild
    · rcases hord : dictGet? orders clid with _ | order
      · simp [buildRow?, resolveWith, hres, hc, hord] at hbuild
      · have hrow_eq : row = mkRow order f := by
          rcases h40 : dictGet? f TAG_ORDTYPE with _ | v
          · simp [buildRow?, resolveWith, hres, hc, hord, h40] at hbuild
            exact hbuild.symm
          · by_cases hv : v = ORDTYPE_LIMIT
            · simp [buildRow?, resolveWith, hres, hc, hord, h40, hv] at hbuild
              exact hbuild.symm
            · simp [buildRow?, resolveWith, hres, hc, hord, h40, hv] at hbuild
        have h1 := hor (clid, order) (dictGet?_mem orders clid order hord)
        have h2 := hf f hfmem
        subst hrow_eq
        refine ⟨fun hx => h1 ?_, fun hx => h2.1 ?_, fun hx => h2.2 ?_⟩
        · have hg : (mkRow order f).get? 1 = some (getD order TAG_TRANSACTTIME) := rfl
          rw [hg] at hx
          exact Option.some.inj hx
        · have hg : (mkRow order f).get? 2 = some (getD f TAG_TRANSACTTIME) := rfl
          rw [hg] at hx
          exact Option.some.inj hx
        · have hg : (mkRow order f).get? 8 = some (getD f TAG_LASTMKT) := rfl
          rw [hg] at hx
          exact Option.some.inj hx

/-- Input whose stored order and fill carry all three of tags 60 and 30. -/
def c1wLines : List (List Char) :=
  [chars "35=D|11=A1|40=2|44=10|60=T1|55=S|54=1|38=5",
   chars "35=8|41=A1|150=2|39=2|60=T2|30=V|6=9"]

/-- The row emitted for `c1wLines`. -/
def c1wRow : List (List Char) :=
  [chars "A1", chars "T1", chars "T2", chars "S", chars "1", chars "5",
   chars "10", chars "9", chars "V"]

theorem c1_witness :
    c1wRow ∈ build_rows (load_orders_and_fills c1wLines).1
        (load_orders_and_fills c1wLines).2 ∧
    (c1wRow.get? 1 ≠ some [] ∧ c1wRow.get? 2 ≠ some [] ∧
      c1wRow.get? 8 ≠ some []) :=
  ⟨by decide,
   c1_nonempty_when_sources_nonempty (load_orders_and_fills c1wLines).1
     (load_orders_and_fills c1wLines).2 (by decide) (by decide) c1wRow (by decide)⟩

/-- Two loading states that agree on every store lookup except possibly at
identifier `c`, and have identical fill buffers. -/
def stEquivExcept (c : List Char) (s t : LoadState) : Prop :=
  (∀ k, k ≠ c → dictGet? s.1 k = dictGet? t.1 k) ∧ s.2 = t.2

/-- Two loading states that agree on every store lookup and have identical
fill buffers. -/
def stEquiv (s t : LoadState) : Prop :=
  (∀ k, dictGet? s.1 k = dictGet? t.1 k) ∧ s.2 = t.2

theorem stEquivExcept_processLine (c : List Char) (l : List Char)
    {s t : LoadState} (h : stEquivExcept c s t) :
    stEquivExcept c (processLine s l) (processLine t l) := by
  rw [processLine_eq, processLine_eq]
  cases hso : storedOrder? l with
  | none => exact ⟨fun k hk => h.1 k hk, by rw [h.2]⟩
  | some co =>
    refine ⟨fun k hk => ?_, by rw [h.2]⟩
    simp only []
    rw [dictGet?_dictPut, dictGet?_dictPut]
    by_cases hkc : k = co.1
    · simp [hkc]
    · simp [hkc]
      exact h.1 k hk

theorem stEquiv_processLine (l : List Char) {s t : LoadState}
    (h : stEquiv s t) : stEquiv (processLine s l) (processLine t l) := by
  rw [processLine_eq, processLine_eq]
  cases hso : storedOrder? l with
  | none => exact ⟨fun k => h.1 k, by rw [h.2]⟩
  | some co =>
    refine ⟨fun k => ?_, by rw [h.2]⟩
    simp only []
    rw [dictGet?_dictPut, dictGet?_dictPut]
    by_cases hkc : k = co.1
    · simp [hkc]
    · simp [hkc]
      exact h.1 k

theorem stEquivExcept_foldl (c : List Char) (ls : List (List Char))
    {s t : LoadState} (h : stEquivExcept c s t) :
    stEquivExcept c (ls.foldl processLine s) (ls.foldl processLine t) := by
  induction ls generalizing s t with
  | nil => exact h
  | cons l ls ih => exact ih (stEquivExcept_processLine c l h)

theorem stEquiv_foldl (ls : List (List Char)) {s t : LoadState}
    (h : stEquiv s t) :
    stEquiv (ls.foldl processLine s) (ls.foldl processLine t) := by
  induction ls generalizing s t with
  | nil => exact h
  | cons l ls ih => exact ih (stEquiv_processLine l h)

/-- Processing a line that stores under `c` erases any disagreement at `c`. -/
theorem stEquiv_processLine_store (c : List Char) (o₂ : RawMessage)
    (l : List Char) {s t : LoadState} (h : stEquivExcept c s t)
    (hso : storedOrder? l = some (c, o₂)) :
    stEquiv (processLine s l) (processLine t l) := by
  rw [processLine_eq, processLine_eq, hso]
  refine ⟨fun k => ?_, by rw [h.2]⟩
  simp only []
  rw [dictGet?_dictPut, dictGet?_dictPut]
  by_cases hkc : k = c
  · simp [hkc]
  · simp [hkc]
    exact h.1 k hkc

theorem buildRow?_congr (o₁ o₂ : List (List Char × RawMessage))
    (h : ∀ k, dictGet? o₁ k = dictGet? o₂ k) (ex : RawMessage) :
    buildRow? o₁ ex = buildRow? o₂ ex := by
  unfold buildRow? resolveWith
  cases pyOr (dictGet? ex TAG_ORIGCLORDID) (dictGet? ex TAG_CLORDID) with
  | none => rfl
  | some clid =>
    by_cases hc : clid = []
    · simp [hc]
    · simp [hc, h clid]

theorem build_rows_congr (o₁ o₂ : List (List Char × RawMessage))
    (fills : List RawMessage) (h : ∀ k, dictGet? o₁ k = dictGet? o₂ k) :
    build_rows o₁ fills = build_rows o₂ fills := by
  unfold build_rows
  induction fills with
  | nil => rfl
  | cons f fs ih => rw [List.filterMap_cons, List.filterMap_cons,
      buildRow?_congr o₁ o₂ h f, ih]

/-- A line that classifies as a qualifying order has a non-empty identifier. -/
theorem storedOrder?_clid_ne_nil (line : List Char) (c : List Char)
    (o : RawMessage) (h : storedOrder? line = some (c, o)) : c ≠ [] := by
  cases h35 : dictGet? (parse_fix_line line) TAG_MSGTYPE with
  | none => simp [storedOrder?, h35] at h
  | some mt =>
    by_cases hD : mt = MSG_NEW_ORDER_SINGLE
    · cases h11 : dictGet? (parse_fix_line line) TAG_CLORDID with
      | none => simp [storedOrder?, h35, hD, h11] at h
      | some clid =>
        by_cases hc : clid = []
        · simp [storedOrder?, h35, hD, h11, hc] at h
        · cases h40 : dictGet? (parse_fix_line line) TAG_ORDTYPE with
          | none => simp [storedOrder?, h35, hD, h11, hc, h40] at h
          | some ot =>
            by_cases hl : ot = ORDTYPE_LIMIT
            · simp [storedOrder?, h35, hD, h11, hc, h40, hl] at h
              rw [← h.1]
              exact hc
            · simp [storedOrder?, h35, hD, h11, hc, h40, hl] at h
    · simp [storedOrder?, h35, hD] at h

/-- C5 counterexample: with two qualifying A1 order lines — the later one
carrying no symbol — and a fill echoing symbol ECHO, the emitted record's
symbol is ECHO, not the later order's (empty) stored symbol; the record does
carry the later order's limit price 11. -/
theorem c5_counterexample :
    run [chars "35=D|11=A1|40=2|55=OLD|44=10|60=T1",
         chars "35=D|11=A1|40=2|44=11",
         chars "35=8|41=A1|150=2|39=2|55=ECHO"] =
      [[chars "A1", [], [], chars "ECHO", [], [], chars "11", [], []]] ∧
    getD ((dictGet? (load_orders_and_fills
        [chars "35=D|11=A1|40=2|55=OLD|44=10|60=T1",
         chars "35=D|11=A1|40=2|44=11",
         chars "35=8|41=A1|150=2|39=2|55=ECHO"]).1 (chars "A1")).getD [])
      TAG_SYMBOL = [] := by
  refine ⟨by decide, by decide⟩

/-- C5 (amended): when two lines both classify as qualifying limit orders
under the same identifier, the earlier line has no effect on the output at
all — the emitted rows equal those of the input with the earlier order line
removed; so every matched record is built from the later order's stored
fields alone (symbol, side and quantity falling back to the fill's echoed
values exactly when the later order's stored value is empty). -/
theorem c5_last_write_wins
    (pre mid post : List (List Char)) (l1 l2 : List Char)
    (c : List Char) (o1 o2 : RawMessage)
    (h1 : storedOrder? l1 = some (c, o1))
    (h2 : storedOrder? l2 = some (c, o2)) :
    run (pre ++ l1 :: (mid ++ l2 :: post)) = run (pre ++ (mid ++ l2 :: post)) := by
  have hL : load_orders_and_fills (pre ++ l1 :: (mid ++ l2 :: post)) =
      (mid ++ l2 :: post).foldl processLine
        (processLine (pre.foldl processLine ([], [])) l1) := by
    unfold load_orders_and_fills
    rw [List.foldl_append, List.foldl_cons]
  have hR : load_orders_and_fills (pre ++ (mid ++ l2 :: post)) =
      (mid ++ l2 :: post).foldl processLine (pre.foldl processLine ([], [])) := by
    unfold load_orders_and_fills
    rw [List.foldl_append]
  have hexc : stEquivExcept c
      (processLine (pre.foldl processLine ([], [])) l1)
      (pre.foldl processLine ([], [])) := by
    constructor
    · intro k hk
      rw [processLine_eq, h1]
      simp only []
      rw [dictGet?_dictPut, if_neg hk]
    · rw [processLine_eq, h1, fillMsg?_none_of_stored l1 (c, o1) h1]
      simp
  have key : stEquiv
      ((mid ++ l2 :: post).foldl processLine
        (processLine (pre.foldl processLine ([], [])) l1))
      ((mid ++ l2 :: post).foldl processLine (pre.foldl processLine ([], []))) := by
    rw [List.foldl_append, List.foldl_append, List.foldl_cons, List.foldl_cons]
    exact stEquiv_foldl post
      (stEquiv_processLine_store c o2 l2 (stEquivExcept_foldl c mid hexc) h2)
  unfold run
  rw [hL, hR]
  have hrows := build_rows_congr _ _
    ((mid ++ l2 :: post).foldl processLine
      (processLine (pre.foldl processLine ([], [])) l1)).2 key.1
  rw [hrows, key.2]

/-- The two order lines and the fill line instantiating C5. -/
def c5wL1 : List Char := chars "35=D|11=A1|40=2|44=10"

def c5wL2 : List Char := chars "35=D|11=A1|40=2|44=11|60=T1"

def c5wFillLine : List Char := chars "35=8|41=A1|150=2|39=2"

theorem c5_witness :
    storedOrder? c5wL1 =
      some (chars "A1",
        mkStoredOrder (chars "A1") (parse_fix_line c5wL1) ORDTYPE_LIMIT) ∧
    run [c5wL1, c5wL2, c5wFillLine] = run [c5wL2, c5wFillLine] :=
  ⟨by decide,
   c5_last_write_wins [] [] [c5wFillLine] c5wL1 c5wL2 (chars "A1")
     (mkStoredOrder (chars "A1") (parse_fix_line c5wL1) ORDTYPE_LIMIT)
     (mkStoredOrder (chars "A1") (parse_fix_line c5wL2) ORDTYPE_LIMIT)
     (by decide) (by decide)⟩

/-- The fill buffer after a load pass is the pass's qualifying fill messages
appended in input order. -/
theorem foldl_fills (ls : List (List Char)) (st : LoadState) :
    (ls.foldl processLine st).2 = st.2 ++ ls.filterMap fillMsg? := by
  induction ls generalizing st with
  | nil => simp
  | cons l ls ih =>
    rw [List.foldl_cons, ih, processLine_eq]
    cases hf : fillMsg? l with
    | none => simp [List.filterMap_cons, hf]
    | some m => simp [List.filterMap_cons, hf]

/-- Once the store holds an identifier, it holds it for the rest of the load
pass (entries are only ever overwritten, never removed). -/
theorem store_persists (ls : List (List Char)) (st : LoadState)
    (c : List Char) (h : (dictGet? st.1 c).isSome) :
    (dictGet? (ls.foldl processLine st).1 c).isSome := by
  induction ls generalizing st with
  | nil => exact h
  | cons l ls ih =>
    refine ih (processLine st l) ?_
    rw [processLine_eq]
    cases hso : storedOrder? l with
    | none => simpa using h
    | some co =>
      simp only []
      rw [dictGet?_dictPut]
      by_cases hk : c = co.1
      · simp [hk]
      · simpa [hk] using h

/-- C8: correlation happens only against the store built from the entire
input — a qualifying fill line appearing before the matching qualifying
order line still correlates, and its joined record is emitted. -/
theorem c8_store_fully_populated_before_lookup
    (pre mid post : List (List Char)) (fl ol : List Char)
    (exMsg : RawMessage) (c : List Char) (o : RawMessage)
    (hfl : fillMsg? fl = some exMsg)
    (hol : storedOrder? ol = some (c, o))
    (hres : pyOr (dictGet? exMsg TAG_ORIGCLORDID) (dictGet? exMsg TAG_CLORDID) =
      some c)
    (h40 : dictGet? exMsg TAG_ORDTYPE = none ∨
      dictGet? exMsg TAG_ORDTYPE = some ORDTYPE_LIMIT) :
    ∃ row,
      buildRow? (load_orders_and_fills (pre ++ fl :: (mid ++ ol :: post))).1
          exMsg = some row ∧
      row ∈ run (pre ++ fl :: (mid ++ ol :: post)) := by
  have hstore : (dictGet?
      (load_orders_and_fills (pre ++ fl :: (mid ++ ol :: post))).1 c).isSome := by
    unfold load_orders_and_fills
    rw [List.foldl_append, List.foldl_cons, List.foldl_append, List.foldl_cons]
    apply store_persists
    rw [processLine_eq, hol]
    simp only []
    rw [dictGet?_dictPut]
    simp
  obtain ⟨order, horder⟩ := Option.isSome_iff_exists.mp hstore
  have hcne : c ≠ [] := storedOrder?_clid_ne_nil ol c o hol
  have hbuild : buildRow?
      (load_orders_and_fills (pre ++ fl :: (mid ++ ol :: post))).1 exMsg =
      some (mkRow order exMsg) := by
    rcases h40 with h40 | h40
    · simp [buildRow?, resolveWith, hres, hcne, horder, h40]
    · simp [buildRow?, resolveWith, hres, hcne, horder, h40]
  have hmem : exMsg ∈
      (load_orders_and_fills (pre ++ fl :: (mid ++ ol :: post))).2 := by
    unfold load_orders_and_fills
    rw [foldl_fills]
    refine List.mem_append.mpr (Or.inr ?_)
    exact List.mem_filterMap.mpr ⟨fl, by simp, hfl⟩
  exact ⟨mkRow order exMsg, hbuild,
    List.mem_filterMap.mpr ⟨exMsg, hmem, hbuild⟩⟩

/-- The fill line and order line instantiating C8 (fill first in the input). -/
def c8wFill : List Char := chars "35=8|41=A1|150=2|39=2|6=9|30=V|60=T2"

def c8wOrder : List Char := chars "35=D|11=A1|40=2|44=10|60=T1"

theorem c8_witness :
    fillMsg? c8wFill = some (parse_fix_line c8wFill) ∧
    (∃ row,
      buildRow? (load_orders_and_fills [c8wFill, c8wOrder]).1
          (parse_fix_line c8wFill) = some row ∧
      row ∈ run [c8wFill, c8wOrder]) :=
  ⟨by decide,
   c8_store_fully_populated_before_lookup [] [] [] c8wFill c8wOrder
     (parse_fix_line c8wFill) (chars "A1")
     (mkStoredOrder (chars "A1") (parse_fix_line c8wOrder) ORDTYPE_LIMIT)
     (by decide) (by decide) (by decide) (Or.inl (by decide))⟩

/-- Join tokens with a single separator character (the inverse image of a
one-character split). -/
def intercalateSep (d : Char) : List (List Char) → List Char
  | [] => []
  | [t] => t
  | t :: ts => t ++ d :: intercalateSep d ts

/-- Render one `tag=value` field. -/
def fieldOf (p : List Char × List Char) : List Char := p.1 ++ '=' :: p.2

/-- Render a tag→value association as one line with separator `d`. -/
def renderLine (d : Char) (pairs : List (List Char × List Char)) : List Char :=
  intercalateSep d (pairs.map fieldOf)

theorem splitOnPred_no_sep (p : Char → Bool) (t : List Char)
    (h : ∀ c ∈ t, p c = false) : splitOnPred p t = [t] := by
  induction t with
  | nil => rfl
  | cons c cs ih =>
    have hc : p c = false := h c (List.mem_cons_self c cs)
    have ih' := ih (fun c' hc' => h c' (List.mem_cons_of_mem c hc'))
    simp [splitOnPred, hc, ih']

theorem splitOnPred_append_sep (p : Char → Bool) (d : Char) (t rest : List Char)
    (hd : p d = true) (h : ∀ c ∈ t, p c = false) :
    splitOnPred p (t ++ d :: rest) = t :: splitOnPred p rest := by
  induction t with
  | nil => simp [splitOnPred, hd]
  | cons c cs ih =>
    have hc : p c = false := h c (List.mem_cons_self c cs)
    have ih' := ih (fun c' hc' => h c' (List.mem_cons_of_mem c hc'))
    simp [splitOnPred, hc, ih']

theorem splitOnPred_intercalateSep (p : Char → Bool) (d : Char) (hd : p d = true) :
    ∀ (ts : List (List Char)), ts ≠ [] →
      (∀ t ∈ ts, ∀ c ∈ t, p c = false) →
      splitOnPred p (intercalateSep d ts) = ts
  | [], h, _ => absurd rfl h
  | [t], _, h => by
    simp [intercalateSep, splitOnPred_no_sep p t (h t (by simp))]
  | t :: t' :: ts, _, h => by
    rw [show intercalateSep d (t :: t' :: ts) =
        t ++ d :: intercalateSep d (t' :: ts) from rfl,
      splitOnPred_append_sep p d t _ hd (h t (by simp)),
      splitOnPred_intercalateSep p d hd (t' :: ts) (by simp)
        (fun u hu c hc => h u (List.mem_cons_of_mem t hu) c hc)]

theorem mem_intercalateSep (d : Char) :
    ∀ (ts : List (List Char)) (c : Char), c ∈ intercalateSep d ts →
      c = d ∨ ∃ t ∈ ts, c ∈ t
  | [], c, h => by simp [intercalateSep] at h
  | [t], c, h => Or.inr ⟨t, by simp, h⟩
  | t :: t' :: ts, c, h => by
    rw [show intercalateSep d (t :: t' :: ts) =
        t ++ d :: intercalateSep d (t' :: ts) from rfl] at h
    rcases List.mem_append.mp h with h | h
    · exact Or.inr ⟨t, by simp, h⟩
    · rcases List.mem_cons.mp h with h | h
      · exact Or.inl h
      · rcases mem_intercalateSep d (t' :: ts) c h with h | ⟨u, hu, hc⟩
        · exact Or.inl h
        · exact Or.inr ⟨u, List.mem_cons_of_mem t hu, hc⟩

theorem sep_mem_intercalateSep (d : Char) (t t' : List Char)
    (ts : List (List Char)) : d ∈ intercalateSep d (t :: t' :: ts) := by
  show d ∈ t ++ d :: intercalateSep d (t' :: ts)
  exact List.mem_append.mpr (Or.inr (List.mem_cons_self _ _))

theorem intercalateSep_ne_nil (d : Char) :
    ∀ (ts : List (List Char)), ts ≠ [] → (∀ t ∈ ts, t ≠ []) →
      intercalateSep d ts ≠ []
  | [], h, _ => absurd rfl h
  | [t], _, h => by simpa [intercalateSep] using h t (by simp)
  | t :: t' :: ts, _, _ => by
    show t ++ d :: intercalateSep d (t' :: ts) ≠ []
    simp

theorem head?_intercalateSep (d : Char) (t : List Char) (ts : List (List Char))
    (ht : t ≠ []) : (intercalateSep d (t :: ts)).head? = t.head? := by
  cases ts with
  | nil => rfl
  | cons t' ts =>
    show (t ++ d :: intercalateSep d (t' :: ts)).head? = t.head?
    exact List.head?_append_of_ne_nil t ht

theorem getLast?_intercalateSep (d : Char) :
    ∀ (ts : List (List Char)), ts ≠ [] → (∀ t ∈ ts, t ≠ []) →
      ∃ t ∈ ts, (intercalateSep d ts).getLast? = t.getLast?
  | [], h, _ => absurd rfl h
  | [t], _, _ => ⟨t, by simp, rfl⟩
  | t :: t' :: ts, _, h => by
    obtain ⟨u, hu, heq⟩ := getLast?_intercalateSep d (t' :: ts) (by simp)
      (fun v hv => h v (List.mem_cons_of_mem t hv))
    refine ⟨u, List.mem_cons_of_mem t hu, ?_⟩
    show (t ++ d :: intercalateSep d (t' :: ts)).getLast? = u.getLast?
    rw [List.getLast?_append_of_ne_nil t (by simp)]
    have hI : intercalateSep d (t' :: ts) ≠ [] :=
      intercalateSep_ne_nil d (t' :: ts) (by simp)
        (fun v hv => h v (List.mem_cons_of_mem t hv))
    rw [show (d :: intercalateSep d (t' :: ts)) =
        [d] ++ intercalateSep d (t' :: ts) from rfl,
      List.getLast?_append_of_ne_nil [d] hI, heq]

theorem mem_of_head?_eq (l : List Char) (a : Char) (h : l.head? = some a) :
    a ∈ l := by
  rw [List.eq_cons_of_mem_head? (show a ∈ l.head? from h)]
  exact List.mem_cons_self _ _

theorem mem_of_getLast?_eq (l : List Char) (a : Char) (h : l.getLast? = some a) :
    a ∈ l := by
  obtain ⟨hne, heq⟩ := List.mem_getLast?_eq_getLast (show a ∈ l.getLast? from h)
  rw [heq]
  exact List.getLast_mem hne

theorem dropWhile_eq_self_of_head (p : Char → Bool) (cs : List Char)
    (h : ∀ c, cs.head? = some c → p c = false) : cs.dropWhile p = cs := by
  cases cs with
  | nil => rfl
  | cons a l =>
    rw [List.dropWhile_cons, h a rfl]
    simp

theorem pyStrip_eq_self (cs : List Char)
    (hh : ∀ c, cs.head? = some c → pySpace c = false)
    (hl : ∀ c, cs.getLast? = some c → pySpace c = false) : pyStrip cs = cs := by
  unfold pyStrip
  rw [dropWhile_eq_self_of_head pySpace cs hh,
    dropWhile_eq_self_of_head pySpace cs.reverse
      (fun c hc => hl c (by rw [← List.head?_reverse cs]; exact hc))]
  exact List.reverse_reverse cs

/-- A separator-joined token list has no surrounding whitespace and is
non-empty, when the tokens are non-empty and whitespace-free. -/
theorem strip_facts (d : Char) (fs : List (List Char)) (hne : fs ≠ [])
    (hfield_ne : ∀ t ∈ fs, t ≠ [])
    (hns : ∀ t ∈ fs, ∀ c ∈ t, pySpace c = false) :
    pyStrip (intercalateSep d fs) = intercalateSep d fs ∧
    intercalateSep d fs ≠ [] := by
  obtain ⟨t0, ts, rfl⟩ : ∃ t0 ts, fs = t0 :: ts := by
    cases fs with
    | nil => exact absurd rfl hne
    | cons t0 ts => exact ⟨t0, ts, rfl⟩
  constructor
  · apply pyStrip_eq_self
    · intro c hc
      rw [head?_intercalateSep d t0 ts (hfield_ne t0 (by simp))] at hc
      exact hns t0 (by simp) c (mem_of_head?_eq t0 c hc)
    · intro c hc
      obtain ⟨u, hu, heq⟩ := getLast?_intercalateSep d (t0 :: ts) (by simp) hfield_ne
      rw [heq] at hc
      exact hns u hu c (mem_of_getLast?_eq u c hc)
  · exact intercalateSep_ne_nil d (t0 :: ts) (by simp) hfield_ne

theorem parse_eq_of_soh (line : List Char) (h1 : pyStrip line = line)
    (h2 : line ≠ []) (h3 : soh ∈ line) :
    parse_fix_line line =
      (splitOnPred (fun c => c = soh) line).foldl addField [] := by
  simp [parse_fix_line, h1, h2, h3]

theorem parse_eq_of_pipe (line : List Char) (h1 : pyStrip line = line)
    (h2 : line ≠ []) (h3 : ¬ soh ∈ line) (h4 : '|' ∈ line) :
    parse_fix_line line =
      (splitOnPred (fun c => c = '|') line).foldl addField [] := by
  simp [parse_fix_line, h1, h2, h3, h4]

theorem parse_eq_of_ws (line : List Char) (h1 : pyStrip line = line)
    (h2 : line ≠ []) (h3 : ¬ soh ∈ line) (h4 : ¬ '|' ∈ line) :
    parse_fix_line line = (splitOnPred pySpace line).foldl addField [] := by
  simp [parse_fix_line, h1, h2, h3, h4]

/-- C4: a tag→value association whose tags and values avoid SOH, pipe,
whitespace and (for tags) `'='`, rendered as one line with the SOH
separator, with pipes, or with a space, tokenizes to the identical field
map under the delimiter cascade. -/
theorem c4_delimiter_independence (pairs : List (List Char × List Char))
    (hk : ∀ p ∈ pairs, ∀ c ∈ p.1,
      c ≠ soh ∧ c ≠ '|' ∧ pySpace c = false ∧ c ≠ '=')
    (hv : ∀ p ∈ pairs, ∀ c ∈ p.2, c ≠ soh ∧ c ≠ '|' ∧ pySpace c = false) :
    parse_fix_line (renderLine soh pairs) = parse_fix_line (renderLine '|' pairs) ∧
    parse_fix_line (renderLine '|' pairs) = parse_fix_line (renderLine ' ' pairs) := by
  rcases pairs with _ | ⟨p1, ps⟩
  · exact ⟨rfl, rfl⟩
  rcases ps with _ | ⟨p2, ps⟩
  · exact ⟨rfl, rfl⟩
  have hfs_ne : (p1 :: p2 :: ps).map fieldOf ≠ [] := by simp
  have hfield_ne : ∀ t ∈ (p1 :: p2 :: ps).map fieldOf, t ≠ [] := by
    intro t ht
    obtain ⟨p, _, rfl⟩ := List.mem_map.mp ht
    simp [fieldOf]
  have hchars : ∀ t ∈ (p1 :: p2 :: ps).map fieldOf, ∀ c ∈ t,
      c ≠ soh ∧ c ≠ '|' ∧ pySpace c = false := by
    intro t ht c hc
    obtain ⟨p, hp, rfl⟩ := List.mem_map.mp ht
    rcases List.mem_append.mp hc with hc | hc
    · exact ⟨(hk p hp c hc).1, (hk p hp c hc).2.1, (hk p hp c hc).2.2.1⟩
    · rcases List.mem_cons.mp hc with rfl | hc
      · exact ⟨by decide, by decide, by decide⟩
      · exact hv p hp c hc
  have hns : ∀ t ∈ (p1 :: p2 :: ps).map fieldOf, ∀ c ∈ t, pySpace c = false :=
    fun t ht c hc => (hchars t ht c hc).2.2
  -- SOH rendering
  have hS := strip_facts soh ((p1 :: p2 :: ps).map fieldOf) hfs_ne hfield_ne hns
  have hSmem : soh ∈ intercalateSep soh ((p1 :: p2 :: ps).map fieldOf) :=
    sep_mem_intercalateSep soh (fieldOf p1) (fieldOf p2) (ps.map fieldOf)
  have hparseS : parse_fix_line (renderLine soh (p1 :: p2 :: ps)) =
      ((p1 :: p2 :: ps).map fieldOf).foldl addField [] := by
    rw [show renderLine soh (p1 :: p2 :: ps) =
        intercalateSep soh ((p1 :: p2 :: ps).map fieldOf) from rfl,
      parse_eq_of_soh _ hS.1 hS.2 hSmem,
      splitOnPred_intercalateSep _ soh (by simp) _ hfs_ne
        (fun t ht c hc => by simp [(hchars t ht c hc).1])]
  -- pipe rendering
  have hP := strip_facts '|' ((p1 :: p2 :: ps).map fieldOf) hfs_ne hfield_ne hns
  have hPnosoh : ¬ soh ∈ intercalateSep '|' ((p1 :: p2 :: ps).map fieldOf) := by
    intro hmem
    rcases mem_intercalateSep '|' _ soh hmem with h | ⟨t, ht, hc⟩
    · exact absurd h (by decide)
    · exact (hchars t ht soh hc).1 rfl
  have hPmem : '|' ∈ intercalateSep '|' ((p1 :: p2 :: ps).map fieldOf) :=
    sep_mem_intercalateSep '|' (fieldOf p1) (fieldOf p2) (ps.map fieldOf)
  have hparseP : parse_fix_line (renderLine '|' (p1 :: p2 :: ps)) =
      ((p1 :: p2 :: ps).map fieldOf).foldl addField [] := by
    rw [show renderLine '|' (p1 :: p2 :: ps) =
        intercalateSep '|' ((p1 :: p2 :: ps).map fieldOf) from rfl,
      parse_eq_of_pipe _ hP.1 hP.2 hPnosoh hPmem,
      splitOnPred_intercalateSep _ '|' (by simp) _ hfs_ne
        (fun t ht c hc => by simp [(hchars t ht c hc).2.1])]
  -- whitespace rendering
  have hW := strip_facts ' ' ((p1 :: p2 :: ps).map fieldOf) hfs_ne hfield_ne hns
  have hWnosoh : ¬ soh ∈ intercalateSep ' ' ((p1 :: p2 :: ps).map fieldOf) := by
    intro hmem
    rcases mem_intercalateSep ' ' _ soh hmem with h | ⟨t, ht, hc⟩
    · exact absurd h (by decide)
    · exact (hchars t ht soh hc).1 rfl
  have hWnopipe : ¬ '|' ∈ intercalateSep ' ' ((p1 :: p2 :: ps).map fieldOf) := by
    intro hmem
    rcases mem_intercalateSep ' ' _ '|' hmem with h | ⟨t, ht, hc⟩
    · exact absurd h (by decide)
    · exact (hchars t ht '|' hc).2.1 rfl
  have hparseW : parse_fix_line (renderLine ' ' (p1 :: p2 :: ps)) =
      ((p1 :: p2 :: ps).map fieldOf).foldl addField [] := by
    rw [show renderLine ' ' (p1 :: p2 :: ps) =
        intercalateSep ' ' ((p1 :: p2 :: ps).map fieldOf) from rfl,
      parse_eq_of_ws _ hW.1 hW.2 hWnosoh hWnopipe,
      splitOnPred_intercalateSep pySpace ' ' (by decide) _ hfs_ne hns]
  exact ⟨hparseS.trans hparseP.symm, hparseP.trans hparseW.symm⟩

theorem c4_witness :
    parse_fix_line (renderLine soh [(chars "35", chars "D"), (chars "11", chars "A1")]) =
      parse_fix_line (renderLine '|' [(chars "35", chars "D"), (chars "11", chars "A1")]) ∧
    parse_fix_line (renderLine '|' [(chars "35", chars "D"), (chars "11", chars "A1")]) =
      parse_fix_line (renderLine ' ' [(chars "35", chars "D"), (chars "11", chars "A1")]) :=
  c4_delimiter_independence [(chars "35", chars "D"), (chars "11", chars "A1")]
    (by decide) (by decide)
